import Mathlib

/-!
Shallow embedding of the analysis core of `src/main.py` (a FastAPI music
analyzer).  Machine floats are idealized as exact rationals.  Where the Python
code produces IEEE NaN (an undefined Pearson correlation from
`np.corrcoef`), the embedding uses an explicit `Option` value whose comparison
semantics match Python floats: every `<` comparison against NaN is false.

A Pearson correlation value `sxy / sqrt (sxx * syy)` is irrational in general,
so a defined correlation is carried as the pair `(sxy, sxx * syy)` and the
comparisons performed by the sort are done exactly on that representation
(`corrLt` below), which is equivalent to comparing the real values.
-/

namespace MusicAnalyzer

/-- Pitch-class names: the `pitches` list of `analyze_key` in `src/main.py`
(written as a concatenation; the value is the plain 12-element list). -/
def pitches : List String :=
  ["C", "C#", "D", "D#", "E", "F"] ++ ["F#", "G", "G#", "A", "A#", "B"]

/-- Krumhansl-Schmuckler major template: `major_profile` in `analyze_key`. -/
def major_profile : List ℚ :=
  [635/100, 223/100, 348/100, 233/100, 438/100, 409/100,
   252/100, 519/100, 239/100, 366/100, 229/100, 288/100]

/-- Krumhansl-Schmuckler minor template: `minor_profile` in `analyze_key`. -/
def minor_profile : List ℚ :=
  [633/100, 268/100, 352/100, 538/100, 260/100, 353/100,
   254/100, 475/100, 398/100, 269/100, 334/100, 317/100]

/-- Embeds `np.roll(l, i)`: circular right-shift by `i` positions. -/
def np_roll (l : List ℚ) (i : ℕ) : List ℚ := l.rotateRight i

/-- Embeds `np.mean(chroma, axis=1)`: the per-row mean of a 12 x T matrix
given as its list of rows.  For T = 0 numpy yields a NaN mean vector, which
makes every subsequent `np.corrcoef` result NaN; here the empty row averages
to `0` (rational division by zero), a constant vector of zero variance, which
makes every subsequent `pearson` result `none` — the same observable
all-undefined outcome. -/
def chromaMean (m : List (List ℚ)) : List ℚ :=
  m.map (fun r => r.sum / (r.length : ℚ))

/-- Sum of squares of a list. -/
def sqSum (l : List ℚ) : ℚ := (l.map (fun x => x * x)).sum

/-- Sum of pairwise products of two lists. -/
def dotSum (a b : List ℚ) : ℚ := ((a.zip b).map (fun p => p.1 * p.2)).sum

/-- Deviations from the mean. -/
def devs (l : List ℚ) : List ℚ := l.map (fun x => x - l.sum / (l.length : ℚ))

/-- Embeds `np.corrcoef(x, y)[0, 1]`: the Pearson correlation
`sxy / sqrt (sxx * syy)` over centered sums.  It is NaN (here `none`) exactly
when either operand has zero variance; otherwise the value is represented
exactly as `some (sxy, sxx * syy)`. -/
def pearson (x y : List ℚ) : Option (ℚ × ℚ) :=
  if sqSum (devs y) = 0 then none
  else if sqSum (devs x) = 0 then none
  else some (dotSum (devs x) (devs y), sqSum (devs x) * sqSum (devs y))

/-- Exact strict comparison of two represented correlations:
`corrLt (a, q) (b, p) = true` iff `a / sqrt q < b / sqrt p` (for `q, p > 0`),
decided by sign analysis and squaring. -/
def corrLt : ℚ × ℚ → ℚ × ℚ → Bool
  | (a, q), (b, p) =>
    if a < 0 then (if b < 0 then decide (b ^ 2 * q < a ^ 2 * p) else true)
    else (if b < 0 then false else decide (a ^ 2 * p < b ^ 2 * q))

/-- Python float `<` on possibly-NaN correlation values: any comparison
involving NaN (`none`) is false. -/
def pyLt : Option (ℚ × ℚ) → Option (ℚ × ℚ) → Bool
  | some x, some y => corrLt x y
  | _, _ => false

/-- Embeds the `key_correlations` list built by `analyze_key`: for each of the
12 rotations, the major candidate then the minor candidate, in enumeration
order. -/
def key_correlations (m : List (List ℚ)) : List (Option (ℚ × ℚ) × String) :=
  (List.range 12).flatMap (fun i =>
    [(pearson (chromaMean m) (np_roll major_profile i), pitches.getD i "" ++ " Major"),
     (pearson (chromaMean m) (np_roll minor_profile i), pitches.getD i "" ++ " Minor")])

/-- Stable insertion of `x` into `s`: `x` is placed before the first element
`y` with `lt y x = false`, i.e. after every strictly smaller prefix element. -/
def py_insert {α : Type} (lt : α → α → Bool) (x : α) : List α → List α
  | [] => [x]
  | y :: ys => if lt y x then y :: py_insert lt x ys else x :: y :: ys

/-- Stable ascending sort by repeated `py_insert`.  For comparison-coherent
keys this computes the unique stable ascending order, which is what CPython's
timsort computes; for the all-NaN key lists arising in this file every
comparison is false, and both this function and timsort leave the list
unchanged. -/
def py_sort_asc {α : Type} (lt : α → α → Bool) : List α → List α
  | [] => []
  | x :: xs => py_insert lt x (py_sort_asc lt xs)

/-- Embeds CPython `list.sort(key=..., reverse=True)`: reverse the list,
stable-sort ascending, reverse again (this is exactly how CPython implements
`reverse=True`, preserving stability for the descending order). -/
def py_sort_desc {α : Type} (lt : α → α → Bool) (l : List α) : List α :=
  (py_sort_asc lt l.reverse).reverse

/-- Comparison of two key candidates by their correlation component, as done
by `key_correlations.sort(key=lambda x: x[0], reverse=True)`. -/
def keyLt (a b : Option (ℚ × ℚ) × String) : Bool := pyLt a.1 b.1

/-- Embeds `best_key = key_correlations[0][1]` after the descending sort. -/
def best_key (m : List (List ℚ)) : String :=
  ((py_sort_desc keyLt (key_correlations m)).headD (none, "")).2

/-- Embeds the `camelot_mapping` dict literal of `analyze_key`, in source
order (the dict has no duplicate keys, so association-list lookup agrees with
Python dict lookup). -/
def camelot_mapping : List (String × String) :=
  [("B Major", "1B"), ("G# Minor", "1A"), ("Ab Minor", "1A"),
   ("F# Major", "2B"), ("Gb Major", "2B"), ("D# Minor", "2A"), ("Eb Minor", "2A"),
   ("C# Major", "3B"), ("Db Major", "3B"), ("A# Minor", "3A"), ("Bb Minor", "3A"),
   ("G# Major", "4B"), ("Ab Major", "4B"), ("F Minor", "4A"),
   ("D# Major", "5B"), ("Eb Major", "5B"), ("C Minor", "5A"),
   ("A# Major", "6B"), ("Bb Major", "6B"), ("G Minor", "6A"),
   ("F Major", "7B"), ("D Minor", "7A"),
   ("C Major", "8B"), ("A Minor", "8A"),
   ("G Major", "9B"), ("E Minor", "9A"),
   ("D Major", "10B"), ("B Minor", "10A"),
   ("A Major", "11B"), ("F# Minor", "11A"), ("Gb Minor", "11A"),
   ("E Major", "12B"), ("C# Minor", "12A"), ("Db Minor", "12A")]

/-- Embeds `camelot_mapping.get(label, "Unknown")`. -/
def camelot_get (s : String) : String :=
  match camelot_mapping.find? (fun p => p.1 == s) with
  | some p => p.2
  | none => "Unknown"

/-- The 24 labels the key estimator can emit, in enumeration order
(sharp-named pitches, Major before Minor at each pitch). -/
def canonical_labels : List String :=
  (List.range 12).flatMap
    (fun i => [pitches.getD i "" ++ " Major", pitches.getD i "" ++ " Minor"])

/-- The 24 valid Camelot codes, wheel positions 1 to 12 with A and B. -/
def camelot_codes : List String :=
  ["1A", "1B", "2A", "2B", "3A", "3B", "4A", "4B", "5A", "5B", "6A", "6B",
   "7A", "7B", "8A", "8B", "9A", "9B", "10A", "10B", "11A", "11B", "12A", "12B"]

/-- Smallest positive normal float32, `np.finfo(np.float32).tiny = 2 ^ (-126)`:
the default threshold of `librosa.util.normalize` on the float32 envelopes
produced by the structure analysis. -/
def tinyFloat32 : ℚ := 1 / 2 ^ 126

/-- Maximum of absolute values: `np.max(np.abs(x))` for nonempty `x`
(`0` on the empty list, on which numpy would instead raise). -/
def maxAbs (l : List ℚ) : ℚ := (l.map (fun x => |x|)).foldr max 0

/-- Embeds `librosa.util.normalize(x)` at its defaults (`norm=np.inf`,
`axis=0`, `threshold=None` hence float32 tiny, `fill=None`): divide by the
maximum absolute value, unless that maximum is below the threshold, in which
case the input is returned unchanged. -/
def lib_normalize (l : List ℚ) : List ℚ :=
  if maxAbs l < tinyFloat32 then l else l.map (fun x => x / maxAbs l)

/-- Stated from the spec's words, for comparison with `lib_normalize` (this is
NOT what the code does): min-max scaling `(x - min x) / (max x - min x)`,
all zeros when `max x = min x`. -/
def spec_minmax_normalize (l : List ℚ) : List ℚ :=
  match l with
  | [] => []
  | x :: xs =>
    let mx := xs.foldl max x
    let mn := xs.foldl min x
    if mx = mn then (x :: xs).map (fun _ => 0)
    else (x :: xs).map (fun v => (v - mn) / (mx - mn))

/-- Embeds the `if/elif/else` chain assigning `label` in `analyze_structure`.
The Python variable is initialized to "Unknown", but that value is dead: the
chain ends in an `else` branch, so one of the four labels is always
assigned. -/
def segment_label (b r : ℚ) : String :=
  if b > 3/5 then "High Energy (Drop/Chorus)"
  else if b < 3/10 ∧ r > 3/10 then "Breakdown/Build"
  else if b < 1/5 ∧ r < 1/5 then "Quiet/Intro/Outro"
  else "Verse/Mid Energy"

/-- Round a rational to the nearest integer, ties to even: the rounding Python
`round` applies (the float-level idealization of banker's rounding). -/
def round_half_even (x : ℚ) : ℤ :=
  if x - ⌊x⌋ < 1/2 then ⌊x⌋
  else if 1/2 < x - ⌊x⌋ then ⌊x⌋ + 1
  else if ⌊x⌋ % 2 = 0 then ⌊x⌋ else ⌊x⌋ + 1

/-- Embeds Python `round(x, 2)`: nearest multiple of 1/100, ties to even. -/
def py_round2 (x : ℚ) : ℚ := (round_half_even (x * 100) : ℚ) / 100

/-- Analysis sample rate fixed by `librosa.load(..., sr=22050)`. -/
def sample_rate : ℕ := 22050

/-- Analysis hop length, `hop_length = 512` in `analyze_structure`. -/
def hop_len : ℕ := 512

/-- Embeds `librosa.time_to_frames(t, sr=22050, hop_length=512)` at integer
seconds: `floor (t * sr / hop)`. -/
def time_to_frames (t : ℕ) : ℕ := t * sample_rate / hop_len

/-- Embeds `librosa.frames_to_time(k, sr=22050, hop_length=512)`:
`k * hop / sr` seconds. -/
def frames_to_time (k : ℕ) : ℚ := (k * hop_len : ℚ) / (sample_rate : ℚ)

/-- Segment record emitted by `analyze_structure`. -/
structure Segment where
  time : ℕ
  label : String
  bass_level : ℚ
  energy_level : ℚ
deriving Repr, DecidableEq

/-- Embeds `range(0, int(duration), 5)`: the sampled times 0, 5, 10, ...
strictly below `int(duration)` (truncation, which is the floor for the
nonnegative durations at hand). -/
def sample_times (duration : ℚ) : List ℕ :=
  (List.range ((⌊duration⌋.toNat + 4) / 5)).map (fun i => 5 * i)

/-- Embeds the segment loop of `analyze_structure`, including the `break`
once the frame index runs past the bass envelope.  The rms envelope is read
at the same index (frame-aligned with the bass envelope in the pipeline);
`getD _ 0` stands for the in-bounds list access. -/
def segments_loop (bass_norm rms_norm : List ℚ) : List ℕ → List Segment
  | [] => []
  | t :: ts =>
    if bass_norm.length ≤ time_to_frames t then []
    else
      { time := t
        label := segment_label (bass_norm.getD (time_to_frames t) 0)
            (rms_norm.getD (time_to_frames t) 0)
        bass_level := py_round2 (bass_norm.getD (time_to_frames t) 0)
        energy_level := py_round2 (rms_norm.getD (time_to_frames t) 0) } ::
        segments_loop bass_norm rms_norm ts

/-- Segments produced by `analyze_structure` from the normalized envelopes
and the track duration. -/
def analyze_segments (bass_norm rms_norm : List ℚ) (duration : ℚ) : List Segment :=
  segments_loop bass_norm rms_norm (sample_times duration)

/-- Embeds `np.diff`: consecutive differences. -/
def np_diff (l : List ℚ) : List ℚ := (l.zip l.tail).map (fun p => p.2 - p.1)

/-- Embeds `np.where(np.abs(bass_diff) > 0.3)[0]` followed by
`librosa.frames_to_time`: the ascending times of the frames whose bass jump
exceeds the 0.3 threshold. -/
def change_point_times (bass_norm : List ℚ) : List ℚ :=
  (((np_diff bass_norm).enum).filter (fun p => 3/10 < |p.2|)).map
    (fun p => frames_to_time p.1)

/-- Embeds the debounce loop of `analyze_structure`: `last_change` starts at
the -100 sentinel; a candidate is kept, rounded to 2 decimals, exactly when
it exceeds `last_change` by more than 10 seconds, and `last_change` is then
updated to the unrounded candidate. -/
def debounce_loop : List ℚ → ℚ → List ℚ
  | [], _ => []
  | cp :: rest, last =>
    if cp - last > 10 then py_round2 cp :: debounce_loop rest cp
    else debounce_loop rest last

/-- Embeds `filtered_changes` (the `mix_points_bass_change` output). -/
def filtered_changes (bass_norm : List ℚ) : List ℚ :=
  debounce_loop (change_point_times bass_norm) (-100)

/-- A 12 x 1 chroma matrix of zeros: one silent frame.  Its mean chroma
vector has zero variance, so all 24 correlations are undefined (NaN). -/
def zero_chroma : List (List ℚ) := List.replicate 12 [(0 : ℚ)]

/-- A 12 x 0 chroma matrix: zero analysis frames (T = 0). -/
def empty_chroma : List (List ℚ) := List.replicate 12 ([] : List ℚ)

/-- A 12 x 1 chroma matrix whose mean vector is the sum of the major profile
and its rotation by 6.  The vector is invariant under rotation by 6, so its
correlation against any template rotated by `i` equals the one against the
same template rotated by `i + 6`: the maximal correlation is attained at
(at least) two candidates. -/
def tie_chroma : List (List ℚ) :=
  (major_profile.zip (np_roll major_profile 6)).map (fun p => [p.1 + p.2])

/-- Scanning a list from the front, the first element that every later
element compares strictly below; `getLast?` of the stable ascending sort
computes exactly this (see `getLast?_py_sort_asc`). -/
def first_keep {α : Type} (lt : α → α → Bool) : List α → Option α
  | [] => none
  | x :: xs => if xs.all (fun y => lt y x) then some x else first_keep lt xs

/-! Helper lemmas. -/

/-- A string that matches no key of the table looks up to the sentinel. -/
theorem camelot_get_miss (s : String) (h : ∀ p ∈ camelot_mapping, p.1 ≠ s) :
    camelot_get s = "Unknown" := by
  have hf : camelot_mapping.find? (fun p => p.1 == s) = none := by
    rw [List.find?_eq_none]
    intro p hp
    simpa using h p hp
  simp [camelot_get, hf]

theorem maxAbs_cons (x : ℚ) (l : List ℚ) : maxAbs (x :: l) = max |x| (maxAbs l) := rfl

theorem maxAbs_map_div (l : List ℚ) (m : ℚ) (hm : 0 < m) :
    maxAbs (l.map (fun x => x / m)) = maxAbs l / m := by
  induction l with
  | nil => simp [maxAbs]
  | cons x xs ih =>
    have habs : |x / m| = |x| / m := by rw [abs_div, abs_of_pos hm]
    rw [List.map_cons, maxAbs_cons, maxAbs_cons, ih, habs, div_eq_mul_inv, div_eq_mul_inv,
      div_eq_mul_inv, ← max_mul_of_nonneg _ _ (inv_nonneg.2 hm.le)]

theorem maxAbs_replicate_succ (n : ℕ) (c : ℚ) :
    maxAbs (List.replicate (n + 1) c) = |c| := by
  induction n with
  | zero => simp [List.replicate, maxAbs_cons, maxAbs, max_eq_left (abs_nonneg c)]
  | succ k ih => rw [List.replicate_succ, maxAbs_cons, ih, max_self]

/-! Claim theorems. -/

/-- C4: the Camelot mapping is total on the 24 canonical labels with values
among the 24 valid codes, reaches every wheel position with both an A and a B
code, sends the documented enharmonic aliases to the same code, and yields
the sentinel "Unknown" on any string that is not a key of the table. -/
theorem camelot_total_aliases_sentinel :
    (∀ lab ∈ canonical_labels, camelot_get lab ∈ camelot_codes)
    ∧ (∀ code ∈ camelot_codes, ∃ lab ∈ canonical_labels, camelot_get lab = code)
    ∧ camelot_get "F# Major" = "2B" ∧ camelot_get "Gb Major" = "2B"
    ∧ camelot_get "G# Minor" = "1A" ∧ camelot_get "Ab Minor" = "1A"
    ∧ (∀ s : String, (∀ p ∈ camelot_mapping, p.1 ≠ s) → camelot_get s = "Unknown") :=
  ⟨by decide, by decide, by decide, by decide, by decide, by decide, camelot_get_miss⟩

/-- Witness for C4: the canonical label "C Major" maps to a valid code, and
the malformed label "H Major" (not a table key) yields "Unknown". -/
theorem camelot_total_aliases_sentinel_witness :
    camelot_get "C Major" ∈ camelot_codes ∧ camelot_get "H Major" = "Unknown" :=
  ⟨camelot_total_aliases_sentinel.1 "C Major" (by decide),
   camelot_total_aliases_sentinel.2.2.2.2.2.2 "H Major" (by decide)⟩

/-- C6: segment labeling applies the ordered first-match rule on every
normalized pair, and on the four literal inputs of the spec it yields
HighEnergy, BreakdownBuild, QuietIntroOutro and VerseMid respectively. -/
theorem segment_label_first_match :
    (∀ b r : ℚ, 0 ≤ b → b ≤ 1 → 0 ≤ r → r ≤ 1 →
      (3/5 < b → segment_label b r = "High Energy (Drop/Chorus)")
      ∧ (¬ 3/5 < b → b < 3/10 ∧ 3/10 < r → segment_label b r = "Breakdown/Build")
      ∧ (¬ 3/5 < b → ¬ (b < 3/10 ∧ 3/10 < r) → b < 1/5 ∧ r < 1/5 →
          segment_label b r = "Quiet/Intro/Outro")
      ∧ (¬ 3/5 < b → ¬ (b < 3/10 ∧ 3/10 < r) → ¬ (b < 1/5 ∧ r < 1/5) →
          segment_label b r = "Verse/Mid Energy"))
    ∧ (∀ r : ℚ, segment_label (7/10) r = "High Energy (Drop/Chorus)")
    ∧ segment_label (1/10) (2/5) = "Breakdown/Build"
    ∧ segment_label (1/10) (1/10) = "Quiet/Intro/Outro"
    ∧ segment_label (9/20) (1/2) = "Verse/Mid Energy" := by
  refine ⟨?_, ?_, ?_, ?_, ?_⟩
  · intro b r _ _ _ _
    unfold segment_label
    refine ⟨fun h => ?_, fun h1 h2 => ?_, fun h1 h2 h3 => ?_, fun h1 h2 h3 => ?_⟩ <;>
      split_ifs <;> first | rfl | tauto
  · intro r
    norm_num [segment_label]
  · norm_num [segment_label]
  · norm_num [segment_label]
  · norm_num [segment_label]

/-- Witness for C6 at a concrete normalized pair. -/
theorem segment_label_first_match_witness :
    segment_label 1 0 = "High Energy (Drop/Chorus)" :=
  (segment_label_first_match.1 1 0 (by norm_num) (by norm_num) (by norm_num)
    (by norm_num)).1 (by norm_num)

/-- C2 counterexample: on the input [1, 2] the code's normalization
(`librosa.util.normalize`, max-abs scaling) yields [1/2, 1], while the
min-max scaling the claim describes would yield [0, 1]. -/
theorem normalize_minmax_counterexample :
    lib_normalize [1, 2] = [1/2, 1] ∧ spec_minmax_normalize [1, 2] = [0, 1]
    ∧ lib_normalize [1, 2] ≠ spec_minmax_normalize [1, 2] := by
  refine ⟨?_, ?_, ?_⟩ <;>
    norm_num [lib_normalize, spec_minmax_normalize, maxAbs, tinyFloat32, max_def, abs]

/-- C2 amended: the normalization step divides by the maximum absolute value
(when that maximum clears the float32 tiny threshold), so the output's
maximum absolute value is exactly 1; a constant input c with tiny <= c yields
all ONES (not zeros), and an all-zero input is returned unchanged (all
zeros, because its max-abs norm is below the threshold). -/
theorem normalize_is_maxabs_scaling :
    (∀ l : List ℚ, tinyFloat32 ≤ maxAbs l →
        lib_normalize l = l.map (fun x => x / maxAbs l))
    ∧ (∀ l : List ℚ, tinyFloat32 ≤ maxAbs l → maxAbs (lib_normalize l) = 1)
    ∧ (∀ (n : ℕ) (c : ℚ), tinyFloat32 ≤ c →
        lib_normalize (List.replicate (n + 1) c) = List.replicate (n + 1) 1)
    ∧ (∀ n : ℕ, lib_normalize (List.replicate n (0 : ℚ)) = List.replicate n 0) := by
  have htiny : (0 : ℚ) < tinyFloat32 := by norm_num [tinyFloat32]
  refine ⟨?_, ?_, ?_, ?_⟩
  · intro l h
    rw [lib_normalize, if_neg (not_lt.2 h)]
  · intro l h
    have hm : 0 < maxAbs l := lt_of_lt_of_le htiny h
    rw [lib_normalize, if_neg (not_lt.2 h), maxAbs_map_div l _ hm, div_self hm.ne']
  · intro n c hc
    have hc0 : 0 < c := lt_of_lt_of_le htiny hc
    have hmax : maxAbs (List.replicate (n + 1) c) = c :=
      (maxAbs_replicate_succ n c).trans (abs_of_pos hc0)
    rw [lib_normalize, hmax, if_neg (not_lt.2 hc), List.map_replicate, div_self hc0.ne']
  · intro n
    cases n with
    | zero => simp [lib_normalize]
    | succ k =>
      have hmax : maxAbs (List.replicate (k + 1) (0 : ℚ)) = 0 := by
        rw [maxAbs_replicate_succ, abs_zero]
      rw [lib_normalize, hmax, if_pos htiny]

/-- Python rounding moves a value by at most 1/2. -/
theorem round_half_even_sub_abs_le (x : ℚ) : |(round_half_even x : ℚ) - x| ≤ 1/2 := by
  have hle : (⌊x⌋ : ℚ) ≤ x := Int.floor_le x
  have hlt : x < ⌊x⌋ + 1 := Int.lt_floor_add_one x
  unfold round_half_even
  split_ifs with h1 h2 h3 <;> rw [abs_le] <;> constructor <;> push_cast <;> linarith

/-- Rounding to 2 decimals moves a value by at most 1/200. -/
theorem py_round2_sub_abs_le (x : ℚ) : |py_round2 x - x| ≤ 1/200 := by
  have h := round_half_even_sub_abs_le (x * 100)
  rw [abs_le] at h ⊢
  unfold py_round2
  constructor <;> push_cast <;> [linarith [h.1]; linarith [h.2]]

/-- Two values more than 10 apart stay at least 10 apart (and strictly
ordered) after rounding to 2 decimals, because both roundings move by at
most 1/200 and the results are multiples of 1/100. -/
theorem py_round2_gap (a b : ℚ) (hab : a + 10 < b) :
    py_round2 a < py_round2 b ∧ py_round2 a + 10 ≤ py_round2 b := by
  have ha := py_round2_sub_abs_le a
  have hb := py_round2_sub_abs_le b
  rw [abs_le] at ha hb
  unfold py_round2 at ha hb ⊢
  have h9 : (999 : ℚ) <
      ((round_half_even (b * 100) - round_half_even (a * 100) : ℤ) : ℚ) := by
    push_cast
    linarith [ha.1, ha.2, hb.1, hb.2]
  have h1000 : (1000 : ℤ) ≤ round_half_even (b * 100) - round_half_even (a * 100) := by
    have h999 : (999 : ℤ) < round_half_even (b * 100) - round_half_even (a * 100) := by
      exact_mod_cast h9
    omega
  have h10 : ((1000 : ℤ) : ℚ) ≤
      ((round_half_even (b * 100) - round_half_even (a * 100) : ℤ) : ℚ) := by
    exact_mod_cast h1000
  push_cast at h10
  constructor <;> linarith

/-- Head of the debounce output: a rounded candidate lying more than 10
seconds past the incoming `last_change` value. -/
theorem debounce_loop_head (cps : List ℚ) (last h : ℚ)
    (hh : (debounce_loop cps last).head? = some h) :
    ∃ c, h = py_round2 c ∧ last + 10 < c := by
  induction cps generalizing last with
  | nil => simp [debounce_loop] at hh
  | cons cp rest ih =>
    rw [debounce_loop] at hh
    split_ifs at hh with hcp
    · refine ⟨cp, ?_, by linarith⟩
      simpa using hh.symm
    · exact ih last hh

/-- The debounce output is strictly increasing with gaps of at least 10. -/
theorem debounce_loop_chain (cps : List ℚ) (last : ℚ) :
    List.Chain' (fun a b => a < b ∧ a + 10 ≤ b) (debounce_loop cps last) := by
  induction cps generalizing last with
  | nil => simp [debounce_loop]
  | cons cp rest ih =>
    rw [debounce_loop]
    split_ifs with hcp
    · rw [List.chain'_cons']
      refine ⟨?_, ih cp⟩
      intro y hy
      rw [Option.mem_def] at hy
      obtain ⟨c, rfl, hc⟩ := debounce_loop_head rest cp y hy
      exact py_round2_gap cp c (by linarith)
    · exact ih last

/-- Every element of the debounce output is a rounded candidate. -/
theorem debounce_loop_mem (cps : List ℚ) (last t : ℚ)
    (ht : t ∈ debounce_loop cps last) : ∃ c ∈ cps, t = py_round2 c := by
  induction cps generalizing last with
  | nil => simp [debounce_loop] at ht
  | cons cp rest ih =>
    rw [debounce_loop] at ht
    split_ifs at ht with hcp
    · rw [List.mem_cons] at ht
      rcases ht with rfl | ht
      · exact ⟨cp, List.mem_cons_self cp rest, rfl⟩
      · obtain ⟨c, hc, rfl⟩ := ih cp ht
        exact ⟨c, List.mem_cons_of_mem cp hc, rfl⟩
    · obtain ⟨c, hc, rfl⟩ := ih last ht
      exact ⟨c, List.mem_cons_of_mem cp hc, rfl⟩

/-- C7: with the -100 sentinel, any first candidate at a nonnegative time is
always kept (as the head of the output, rounded), and on the candidate list
[2, 5, 20] the output is [2, 20]: the 5-second candidate is suppressed. -/
theorem debounce_first_kept_and_example :
    (∀ (c : ℚ) (cs : List ℚ), 0 ≤ c →
        (debounce_loop (c :: cs) (-100)).head? = some (py_round2 c))
    ∧ debounce_loop [2, 5, 20] (-100) = [2, 20] := by
  constructor
  · intro c cs hc
    rw [debounce_loop, if_pos (by linarith)]
    rfl
  · norm_num [debounce_loop, py_round2, round_half_even]

/-- Witness for C7: the first candidate of [2, 5, 20] is kept. -/
theorem debounce_first_kept_witness :
    (debounce_loop ((2 : ℚ) :: [5, 20]) (-100)).head? = some (py_round2 2) :=
  debounce_first_kept_and_example.1 2 [5, 20] (by norm_num)

/-- C8: for every normalized bass envelope the change-point list is strictly
increasing, consecutive elements differ by at least the 10-second debounce
window, and every element is a candidate time rounded to 2 decimals. -/
theorem change_points_invariant (bass_norm : List ℚ) :
    List.Chain' (fun a b => a < b ∧ a + 10 ≤ b) (filtered_changes bass_norm)
    ∧ ∀ t ∈ filtered_changes bass_norm,
        ∃ c ∈ change_point_times bass_norm, t = py_round2 c :=
  ⟨debounce_loop_chain _ _, fun t ht => debounce_loop_mem _ _ t ht⟩

/-- Witness for C8 on the envelope [0, 1], whose single change point is 0. -/
theorem change_points_invariant_witness :
    ∃ c ∈ change_point_times [0, 1], (0 : ℚ) = py_round2 c :=
  (change_points_invariant [0, 1]).2 0 (by
    norm_num [filtered_changes, change_point_times, np_diff, debounce_loop,
      frames_to_time, py_round2, round_half_even, List.enum, List.enumFrom,
      hop_len, sample_rate])

/-- Labels of emitted segments, by induction over the sampled times. -/
theorem segments_loop_label (bass_norm rms_norm : List ℚ) (ts : List ℕ) :
    ∀ s ∈ segments_loop bass_norm rms_norm ts,
      s.label ≠ "Unknown"
      ∧ s.label ∈ ["High Energy (Drop/Chorus)", "Breakdown/Build",
          "Quiet/Intro/Outro", "Verse/Mid Energy"] := by
  induction ts with
  | nil => intro s hs; simp [segments_loop] at hs
  | cons t ts ih =>
    intro s hs
    rw [segments_loop] at hs
    split_ifs at hs
    · simp at hs
    · rw [List.mem_cons] at hs
      rcases hs with rfl | hs
      · constructor
        · show segment_label _ _ ≠ "Unknown"
          unfold segment_label
          split_ifs <;> decide
        · show segment_label _ _ ∈ _
          unfold segment_label
          split_ifs <;> decide
      · exact ih s hs

/-- C9: every segment emitted by the structure analysis carries one of the
four labels; the "Unknown" initialization can never appear in the output. -/
theorem segments_always_labeled (bass_norm rms_norm : List ℚ) (duration : ℚ) :
    ∀ s ∈ analyze_segments bass_norm rms_norm duration,
      s.label ≠ "Unknown"
      ∧ s.label ∈ ["High Energy (Drop/Chorus)", "Breakdown/Build",
          "Quiet/Intro/Outro", "Verse/Mid Energy"] :=
  fun s hs => segments_loop_label bass_norm rms_norm (sample_times duration) s hs

/-- Witness for C9: the single segment of a 1-second track at mid levels. -/
theorem segments_always_labeled_witness :
    (⟨0, "Verse/Mid Energy", 1/2, 1/2⟩ : Segment).label ≠ "Unknown"
    ∧ (⟨0, "Verse/Mid Energy", 1/2, 1/2⟩ : Segment).label ∈
        ["High Energy (Drop/Chorus)", "Breakdown/Build",
         "Quiet/Intro/Outro", "Verse/Mid Energy"] :=
  segments_always_labeled [1/2] [1/2] 1 _ (by
    norm_num [analyze_segments, sample_times, segments_loop, time_to_frames,
      segment_label, py_round2, round_half_even, sample_rate, hop_len])

/-- Inserting permutes. -/
theorem py_insert_perm {α : Type} (lt : α → α → Bool) (x : α) (l : List α) :
    (py_insert lt x l).Perm (x :: l) := by
  induction l with
  | nil => exact List.Perm.refl _
  | cons y ys ih =>
    rw [py_insert]
    split_ifs
    · exact (ih.cons y).trans (List.Perm.swap x y ys)
    · exact List.Perm.refl _

/-- The stable ascending sort permutes. -/
theorem py_sort_asc_perm {α : Type} (lt : α → α → Bool) (l : List α) :
    (py_sort_asc lt l).Perm l := by
  induction l with
  | nil => exact List.Perm.refl _
  | cons x xs ih => exact (py_insert_perm lt x _).trans (ih.cons x)

/-- The descending sort permutes. -/
theorem py_sort_desc_perm {α : Type} (lt : α → α → Bool) (l : List α) :
    (py_sort_desc lt l).Perm l := by
  unfold py_sort_desc
  exact (List.reverse_perm _).trans ((py_sort_asc_perm lt l.reverse).trans
    (List.reverse_perm l))

/-- Rotation permutes. -/
theorem np_roll_perm (l : List ℚ) (i : ℕ) : (np_roll l i).Perm l := by
  show (if l.length ≤ 1 then l
    else l.drop (l.length - i % l.length) ++ l.take (l.length - i % l.length)).Perm l
  split_ifs
  · exact List.Perm.refl _
  · refine List.perm_append_comm.trans ?_
    rw [List.take_append_drop]

/-- Sum of squares is permutation-invariant. -/
theorem sqSum_perm (l l' : List ℚ) (h : l.Perm l') : sqSum l = sqSum l' :=
  List.Perm.sum_eq (h.map _)

/-- The centered sum of squares is permutation-invariant (a permutation
preserves the sum, the length, hence the mean and the deviations). -/
theorem sqSum_devs_of_perm (l l' : List ℚ) (h : l.Perm l') :
    sqSum (devs l) = sqSum (devs l') := by
  unfold devs
  rw [h.sum_eq, h.length_eq]
  exact sqSum_perm _ _ (h.map _)

/-- Every rotation of the major template has nonzero variance. -/
theorem major_roll_nondegenerate (i : ℕ) :
    sqSum (devs (np_roll major_profile i)) ≠ 0 := by
  rw [sqSum_devs_of_perm _ _ (np_roll_perm major_profile i)]
  norm_num [sqSum, devs, major_profile]

/-- Every rotation of the minor template has nonzero variance. -/
theorem minor_roll_nondegenerate (i : ℕ) :
    sqSum (devs (np_roll minor_profile i)) ≠ 0 := by
  rw [sqSum_devs_of_perm _ _ (np_roll_perm minor_profile i)]
  norm_num [sqSum, devs, minor_profile]

/-- Correlation against a non-degenerate template is undefined exactly when
the mean chroma vector is degenerate: here, the undefined case. -/
theorem pearson_eq_none (x t : List ℚ) (ht : sqSum (devs t) ≠ 0)
    (hx : sqSum (devs x) = 0) : pearson x t = none := by
  unfold pearson
  rw [if_neg ht, if_pos hx]

/-- Correlation against a non-degenerate template is defined whenever the
mean chroma vector is non-degenerate. -/
theorem pearson_isSome (x t : List ℚ) (ht : sqSum (devs t) ≠ 0)
    (hx : sqSum (devs x) ≠ 0) : (pearson x t).isSome = true := by
  unfold pearson
  rw [if_neg ht, if_neg hx]
  rfl

/-- The 24 correlations are all defined or all undefined, depending only on
whether the mean chroma vector has zero variance: a mixed list can never
arise. -/
theorem key_correlations_dichotomy (m : List (List ℚ)) :
    ((key_correlations m).all (fun c => c.1.isSome) = true)
    ∨ ((key_correlations m).all (fun c => c.1.isNone) = true) := by
  by_cases hx : sqSum (devs (chromaMean m)) = 0
  · right
    rw [List.all_eq_true]
    intro c hc
    rw [key_correlations, List.mem_flatMap] at hc
    obtain ⟨i, _, hc⟩ := hc
    simp only [List.mem_cons, List.not_mem_nil, or_false] at hc
    rcases hc with rfl | rfl
    · show (pearson (chromaMean m) (np_roll major_profile i)).isNone = true
      rw [pearson_eq_none _ _ (major_roll_nondegenerate i) hx]
      rfl
    · show (pearson (chromaMean m) (np_roll minor_profile i)).isNone = true
      rw [pearson_eq_none _ _ (minor_roll_nondegenerate i) hx]
      rfl
  · left
    rw [List.all_eq_true]
    intro c hc
    rw [key_correlations, List.mem_flatMap] at hc
    obtain ⟨i, _, hc⟩ := hc
    simp only [List.mem_cons, List.not_mem_nil, or_false] at hc
    rcases hc with rfl | rfl
    · exact pearson_isSome _ _ (major_roll_nondegenerate i) hx
    · exact pearson_isSome _ _ (minor_roll_nondegenerate i) hx

/-- C10: for every chroma input the estimator's label is one of the 24
canonical labels (the sort only permutes the fixed label set), and its
Camelot lookup therefore never yields the "Unknown" sentinel. -/
theorem best_key_always_mapped (m : List (List ℚ)) :
    best_key m ∈ canonical_labels ∧ camelot_get (best_key m) ≠ "Unknown" := by
  have hperm := py_sort_desc_perm keyLt (key_correlations m)
  have hlen : (py_sort_desc keyLt (key_correlations m)).length = 24 :=
    hperm.length_eq.trans rfl
  obtain ⟨a, t, hat⟩ : ∃ a t, py_sort_desc keyLt (key_correlations m) = a :: t := by
    cases hsort : py_sort_desc keyLt (key_correlations m) with
    | nil => rw [hsort] at hlen; simp at hlen
    | cons a t => exact ⟨a, t, rfl⟩
  have ha : a ∈ key_correlations m := by
    rw [← hperm.mem_iff, hat]
    exact List.mem_cons_self a t
  have hbk : best_key m = a.2 := by rw [best_key, hat]; rfl
  have hmem : best_key m ∈ canonical_labels := by
    rw [hbk]
    exact List.mem_map_of_mem Prod.snd ha
  have h24 : ∀ lab ∈ canonical_labels, camelot_get lab ≠ "Unknown" := by decide
  exact ⟨hmem, h24 _ hmem⟩

/-- C1 (code divergence): a mix of defined and undefined correlations can
never arise (the 24 correlations are all defined or all undefined, so an
undefined value ranking above a defined one is unreachable); but when all 24
are undefined — as for the all-zero chroma matrix — the code does not fail
with DegenerateSignal: every NaN comparison is false, the sort leaves the
candidate order unchanged, and the first enumerated label "C Major" is
returned. -/
theorem all_undefined_returns_first_label :
    (∀ m : List (List ℚ),
      ((key_correlations m).all (fun c => c.1.isSome) = true)
      ∨ ((key_correlations m).all (fun c => c.1.isNone) = true))
    ∧ ((key_correlations zero_chroma).all (fun c => c.1.isNone) = true)
    ∧ best_key zero_chroma = "C Major" := by
  refine ⟨key_correlations_dichotomy, ?_, ?_⟩
  · norm_num [zero_chroma, key_correlations, chromaMean, pearson, devs, sqSum,
      dotSum, np_roll, List.rotateRight, major_profile, minor_profile, pitches,
      List.range_succ, List.replicate]
  · norm_num [zero_chroma, best_key, key_correlations, chromaMean, pearson,
      devs, sqSum, dotSum, np_roll, List.rotateRight, major_profile,
      minor_profile, pitches, py_sort_desc, py_sort_asc, py_insert, keyLt,
      pyLt, corrLt, List.range_succ, List.replicate]
    decide

/-- C5 (code divergence): on a chroma matrix with zero frames (T = 0) the
key estimator does not fail with InsufficientData: the NaN mean makes all 24
correlations undefined, the sort leaves the order unchanged, and the label
"C Major" (Camelot "8B") is returned. -/
theorem empty_chroma_returns_label :
    best_key empty_chroma = "C Major"
    ∧ camelot_get (best_key empty_chroma) = "8B" := by
  have h1 : best_key empty_chroma = "C Major" := by
    norm_num [empty_chroma, best_key, key_correlations, chromaMean, pearson,
      devs, sqSum, dotSum, np_roll, List.rotateRight, major_profile,
      minor_profile, pitches, py_sort_desc, py_sort_asc, py_insert, keyLt,
      pyLt, corrLt, List.range_succ, List.replicate]
    decide
  refine ⟨h1, ?_⟩
  rw [h1]
  decide

/-- Inserting never yields the empty list. -/
theorem py_insert_ne_nil {α : Type} (lt : α → α → Bool) (x : α) (l : List α) :
    py_insert lt x l ≠ [] := by
  cases l with
  | nil => simp [py_insert]
  | cons y ys =>
    rw [py_insert]
    split_ifs <;> simp

/-- Last element after inserting: the new element if everything present
compares strictly below it, otherwise the previous last element. -/
theorem getLast?_py_insert {α : Type} (lt : α → α → Bool) (x : α) (l : List α) :
    (py_insert lt x l).getLast? =
      if l.all (fun a => lt a x) = true then some x else l.getLast? := by
  induction l with
  | nil => simp [py_insert]
  | cons y ys ih =>
    rw [py_insert]
    cases h : lt y x with
    | true =>
      rw [if_pos rfl]
      obtain ⟨z, zs, hz⟩ := List.exists_cons_of_ne_nil (py_insert_ne_nil lt x ys)
      rw [hz, List.getLast?_cons_cons, ← hz, ih, List.all_cons, h, Bool.true_and]
      by_cases hall : ys.all (fun a => lt a x) = true
      · rw [if_pos hall, if_pos hall]
      · rw [if_neg hall, if_neg hall]
        cases ys with
        | nil => exact absurd rfl hall
        | cons z' zs' => rw [List.getLast?_cons_cons]
    | false =>
      rw [if_neg Bool.false_ne_true, List.getLast?_cons_cons, List.all_cons, h,
        Bool.false_and]
      simp

/-- Permutations preserve `all`. -/
theorem perm_all_eq {α : Type} (p : α → Bool) {l l' : List α} (h : l.Perm l') :
    l.all p = l'.all p := by
  rw [Bool.eq_iff_iff, List.all_eq_true, List.all_eq_true]
  exact ⟨fun hall x hx => hall x (h.mem_iff.2 hx),
         fun hall x hx => hall x (h.mem_iff.1 hx)⟩

/-- Last element of the stable ascending sort: the first element of the
input all of whose successors compare strictly below it. -/
theorem getLast?_py_sort_asc {α : Type} (lt : α → α → Bool) (l : List α) :
    (py_sort_asc lt l).getLast? = first_keep lt l := by
  induction l with
  | nil => rfl
  | cons x xs ih =>
    rw [py_sort_asc, getLast?_py_insert,
      perm_all_eq (fun a => lt a x) (py_sort_asc_perm lt xs), ih, first_keep]

/-- Head of the descending sort: first_keep over the reversed list. -/
theorem head?_py_sort_desc {α : Type} (lt : α → α → Bool) (l : List α) :
    (py_sort_desc lt l).head? = first_keep lt l.reverse := by
  rw [py_sort_desc, List.head?_reverse, getLast?_py_sort_asc]

/-- first_keep skips a block whose every element has a later witness not
comparing below it. -/
theorem first_keep_append {α : Type} (lt : α → α → Bool) (A B : List α)
    (hA : ∀ z ∈ A, ∃ w ∈ B, lt w z = false) :
    first_keep lt (A ++ B) = first_keep lt B := by
  induction A with
  | nil => rfl
  | cons z A ih =>
    rw [List.cons_append, first_keep]
    have hcond : ¬ ((A ++ B).all (fun a => lt a z) = true) := by
      intro hcontra
      rw [List.all_eq_true] at hcontra
      obtain ⟨w, hwB, hw⟩ := hA z (List.mem_cons_self z A)
      have hfw := hcontra w (List.mem_append_right A hwB)
      rw [hw] at hfw
      exact Bool.false_ne_true hfw
    rw [if_neg hcond]
    exact ih (fun z' hz' => hA z' (List.mem_cons_of_mem z hz'))

/-- first_keep takes the head when everything after compares below it. -/
theorem first_keep_cons_of_all {α : Type} (lt : α → α → Bool) (x : α)
    (xs : List α) (h : xs.all (fun a => lt a x) = true) :
    first_keep lt (x :: xs) = some x := by
  rw [first_keep, if_pos h]

/-- Head of the stable descending sort at a dominant position i0: if every
element strictly before position i0 compares below the element there and no
element of the list compares above it, the element at i0 — the first maximal
one — becomes the head.  No coherence of the Boolean comparison is
assumed. -/
theorem head?_py_sort_desc_of_dominant {α : Type} (lt : α → α → Bool)
    (l : List α) (d : α) (i0 : ℕ) (hi : i0 < l.length)
    (h1 : ∀ y ∈ l.take i0, lt y (l.getD i0 d) = true)
    (h2 : ∀ y ∈ l, lt (l.getD i0 d) y = false) :
    (py_sort_desc lt l).head? = some (l.getD i0 d) := by
  rw [List.getD_eq_getElem l d hi] at h1 h2 ⊢
  rw [head?_py_sort_desc]
  have hrev : l.reverse =
      (l.drop (i0 + 1)).reverse ++ l[i0] :: (l.take i0).reverse := by
    conv_lhs => rw [← List.take_append_drop i0 l, List.drop_eq_getElem_cons hi]
    rw [List.reverse_append, List.reverse_cons, List.append_assoc,
      List.singleton_append]
  rw [hrev, first_keep_append lt _ _ ?hfail, first_keep_cons_of_all lt _ _ ?hall]
  case hfail =>
    intro z hz
    exact ⟨l[i0], List.mem_cons_self _ _,
      h2 z (List.mem_of_mem_drop (List.mem_reverse.1 hz))⟩
  case hall =>
    rw [List.all_eq_true]
    intro y hy
    exact h1 y (List.mem_reverse.1 hy)

/-- C3: when candidate i0 is the first maximal one — all 24 correlations
defined, every candidate before i0 comparing strictly below it, none
comparing above it — and at least one other candidate ties with it, the
estimator returns candidate i0's label: the stable descending sort resolves
the tie to the lower enumeration index (lower pitch, Major before Minor). -/
theorem tie_resolves_to_first_enumerated (m : List (List ℚ)) (i0 : ℕ)
    (hi : i0 < (key_correlations m).length)
    (_hdef : ∀ c ∈ key_correlations m, c.1.isSome = true)
    (h1 : ∀ y ∈ (key_correlations m).take i0,
        keyLt y ((key_correlations m).getD i0 (none, "")) = true)
    (h2 : ∀ y ∈ key_correlations m,
        keyLt ((key_correlations m).getD i0 (none, "")) y = false)
    (_htie : ∃ j, j < (key_correlations m).length ∧ j ≠ i0 ∧
        keyLt ((key_correlations m).getD j (none, ""))
          ((key_correlations m).getD i0 (none, "")) = false) :
    best_key m = ((key_correlations m).getD i0 (none, "")).2 := by
  rw [best_key, List.headD_eq_head?,
    head?_py_sort_desc_of_dominant keyLt _ (none, "") i0 hi h1 h2]
  rfl

/-- Evaluation of the candidate list on the symmetric tie input: candidates
0 ("C Major") and 12 ("F# Major") carry the same (maximal) correlation. -/
theorem key_correlations_tie_eval :
    key_correlations tie_chroma =
      [(some ((24291/4000 : ℚ), (18603238059/80000000 : ℚ)), "C Major"),
       (some ((49569/20000 : ℚ), (15553130547/80000000 : ℚ)), "C Minor"),
       (some ((34637/20000 : ℚ), (18603238059/80000000 : ℚ)), "C# Major"),
       (some ((-19999/20000 : ℚ), (15553130547/80000000 : ℚ)), "C# Minor"),
       (some ((-55423/20000 : ℚ), (18603238059/80000000 : ℚ)), "D Major"),
       (some ((-95297/20000 : ℚ), (15553130547/80000000 : ℚ)), "D Minor"),
       (some ((-79883/20000 : ℚ), (18603238059/80000000 : ℚ)), "D# Major"),
       (some ((-1261/20000 : ℚ), (15553130547/80000000 : ℚ)), "D# Minor"),
       (some ((-55423/20000 : ℚ), (18603238059/80000000 : ℚ)), "E Major"),
       (some ((46861/20000 : ℚ), (15553130547/80000000 : ℚ)), "E Minor"),
       (some ((34637/20000 : ℚ), (18603238059/80000000 : ℚ)), "F Major"),
       (some ((20127/20000 : ℚ), (15553130547/80000000 : ℚ)), "F Minor"),
       (some ((24291/4000 : ℚ), (18603238059/80000000 : ℚ)), "F# Major"),
       (some ((49569/20000 : ℚ), (15553130547/80000000 : ℚ)), "F# Minor"),
       (some ((34637/20000 : ℚ), (18603238059/80000000 : ℚ)), "G Major"),
       (some ((-19999/20000 : ℚ), (15553130547/80000000 : ℚ)), "G Minor"),
       (some ((-55423/20000 : ℚ), (18603238059/80000000 : ℚ)), "G# Major"),
       (some ((-95297/20000 : ℚ), (15553130547/80000000 : ℚ)), "G# Minor"),
       (some ((-79883/20000 : ℚ), (18603238059/80000000 : ℚ)), "A Major"),
       (some ((-1261/20000 : ℚ), (15553130547/80000000 : ℚ)), "A Minor"),
       (some ((-55423/20000 : ℚ), (18603238059/80000000 : ℚ)), "A# Major"),
       (some ((46861/20000 : ℚ), (15553130547/80000000 : ℚ)), "A# Minor"),
       (some ((34637/20000 : ℚ), (18603238059/80000000 : ℚ)), "B Major"),
       (some ((20127/20000 : ℚ), (15553130547/80000000 : ℚ)), "B Minor")] := by
  norm_num [tie_chroma, key_correlations, chromaMean, pearson, devs, sqSum,
    dotSum, np_roll, List.rotateRight, major_profile, minor_profile, pitches,
    List.range_succ]
  decide

/-- Witness for C3: on the symmetric tie input, candidates "C Major" (index
0) and "F# Major" (index 12) tie at the maximum, and the estimator returns
"C Major", the first in enumeration order. -/
theorem tie_resolves_witness : best_key tie_chroma = "C Major" := by
  have hi : (0 : ℕ) < (key_correlations tie_chroma).length := by
    rw [key_correlations_tie_eval]
    norm_num
  have hdef : ∀ c ∈ key_correlations tie_chroma, c.1.isSome = true := by
    rw [key_correlations_tie_eval]
    intro c hc
    fin_cases hc <;> rfl
  have h1 : ∀ y ∈ (key_correlations tie_chroma).take 0,
      keyLt y ((key_correlations tie_chroma).getD 0 (none, "")) = true := by
    intro y hy
    simp at hy
  have h2 : ∀ y ∈ key_correlations tie_chroma,
      keyLt ((key_correlations tie_chroma).getD 0 (none, "")) y = false := by
    rw [key_correlations_tie_eval]
    intro y hy
    fin_cases hy <;> norm_num [keyLt, pyLt, corrLt]
  have htie : ∃ j, j < (key_correlations tie_chroma).length ∧ j ≠ 0 ∧
      keyLt ((key_correlations tie_chroma).getD j (none, ""))
        ((key_correlations tie_chroma).getD 0 (none, "")) = false := by
    refine ⟨12, ?_, by norm_num, ?_⟩
    · rw [key_correlations_tie_eval]
      norm_num
    · rw [key_correlations_tie_eval]
      norm_num [keyLt, pyLt, corrLt]
  have hmain := tie_resolves_to_first_enumerated tie_chroma 0 hi hdef h1 h2 htie
  rw [hmain, key_correlations_tie_eval]
  rfl

/-- Witness for C2's amended statement at concrete inputs. -/
theorem normalize_is_maxabs_scaling_witness :
    lib_normalize [1, 2] = [1, 2].map (fun x => x / maxAbs [1, 2])
    ∧ maxAbs (lib_normalize [1, 2]) = 1
    ∧ lib_normalize (List.replicate 2 (1 : ℚ)) = List.replicate 2 1
    ∧ lib_normalize (List.replicate 3 (0 : ℚ)) = List.replicate 3 0 :=
  ⟨normalize_is_maxabs_scaling.1 [1, 2]
      (by norm_num [maxAbs, tinyFloat32, max_def, abs]),
   normalize_is_maxabs_scaling.2.1 [1, 2]
      (by norm_num [maxAbs, tinyFloat32, max_def, abs]),
   normalize_is_maxabs_scaling.2.2.1 1 1 (by norm_num [tinyFloat32]),
   normalize_is_maxabs_scaling.2.2.2 3⟩

end MusicAnalyzer
